import Mathlib

/-!
Shallow embedding of the fix-duplicates-ai repository's core:

* `src/lib/csv.js`        — `cleanCSVData`
* `src/lib/duplicates.js` — `getFieldValues`, `countOccurrences`, `findDuplicates`,
                            `findDuplicatesInData`
* `src/unnamed/part_000` (ai.js) — `getPromptType`, `cleanVariation`, `generateVariation`
* `src/unnamed/part_001` (batch.js) — `processBatch`, `generateVariationsForDuplicates`

Rows are modelled as ordered association lists from field name to string value
(mirroring JavaScript objects, whose keys are ordered and unique).  JavaScript
string primitives used by the source (`trim`, `startsWith`, `endsWith`,
`indexOf`, `lastIndexOf`, `substring`, `slice`, `split`, `join`, `includes`,
`toLowerCase`) are given executable list-based models below, faithful to the
ECMAScript semantics at the call sites that occur in the source.  The external
Ollama text-generation call is abstracted as a function argument; a model
response is a plain string and a failed generation is an `Except.error`.
-/

/-- The set of characters the ECMAScript `trim` operation removes. -/
def jsWhitespace (c : Char) : Bool :=
  decide (c.toNat ∈ ([9, 10, 11, 12, 13, 32, 160, 0x1680, 0x2028, 0x2029,
      0x202f, 0x205f, 0x3000, 0xfeff] : List Nat) ∨
    (0x2000 ≤ c.toNat ∧ c.toNat ≤ 0x200a))

/-- JavaScript `String.prototype.trim` on a character list. -/
def jsTrimL (s : List Char) : List Char :=
  ((s.dropWhile jsWhitespace).reverse.dropWhile jsWhitespace).reverse

/-- JavaScript `String.prototype.trim`. -/
def jsTrimS (s : String) : String := ⟨jsTrimL s.data⟩

/-- JavaScript `s.startsWith(pat)`. -/
def jsStartsWith (s pat : String) : Bool := pat.data.isPrefixOf s.data

/-- JavaScript `s.endsWith(pat)`. -/
def jsEndsWith (s pat : String) : Bool := pat.data.isSuffixOf s.data

/-- First index at which `pat` occurs in the remaining list, offset by `i`. -/
def idxAux (pat : List Char) : List Char → Nat → Option Nat
  | [], i => if pat.isPrefixOf ([] : List Char) then some i else none
  | c :: t, i => if pat.isPrefixOf (c :: t) then some i else idxAux pat t (i + 1)

/-- JavaScript `s.indexOf(pat)`: first occurrence index, or `-1`. -/
def jsIndexOf (s pat : List Char) : Int :=
  match idxAux pat s 0 with
  | some i => (i : Int)
  | none => -1

/-- JavaScript `s.lastIndexOf(pat)`: last occurrence index, or `-1`. -/
def jsLastIndexOf (s pat : List Char) : Int :=
  match ((List.range (s.length + 1)).filter (fun i => pat.isPrefixOf (s.drop i))).getLast? with
  | some i => (i : Int)
  | none => -1

/-- JavaScript `s.substring(a)` (single argument, clamped to `[0, length]`). -/
def jsSubstringFrom (s : List Char) (a : Int) : List Char := s.drop a.toNat

/-- JavaScript `s.substring(0, b)` (second endpoint clamped to `[0, length]`). -/
def jsTakeI (s : List Char) (b : Int) : List Char := s.take b.toNat

/-- JavaScript `s.includes(pat)`. -/
def jsIncludes (s pat : String) : Bool := (idxAux pat.data s.data 0).isSome

/-- JavaScript `s.toLowerCase()` (ASCII range, as exercised by the source). -/
def jsToLower (s : String) : String := ⟨s.data.map Char.toLower⟩

/-- JavaScript `s.split(',')`, accumulating the current chunk in reverse. -/
def splitCommaAux : List Char → List Char → List String
  | [], acc => [⟨acc.reverse⟩]
  | c :: rest, acc =>
    if c = ',' then ⟨acc.reverse⟩ :: splitCommaAux rest [] else splitCommaAux rest (c :: acc)

/-- JavaScript `s.split(',')`. -/
def jsSplitComma (s : String) : List String := splitCommaAux s.data []

/-- JavaScript `arr.join(',')`. -/
def joinComma : List String → String
  | [] => ""
  | [x] => x
  | x :: y :: rest => x ++ "," ++ joinComma (y :: rest)

/-- A row of the tabular dataset: an ordered association list from field name
to string value, modelling a JavaScript object with unique, ordered keys. -/
abbrev Row := List (String × String)

/-- JavaScript property read `row[k]`; a missing field is modelled as the
empty string (the source only reads fields that are present, or immediately
guards the value with `|| ''`). -/
def jsGet : Row → String → String
  | [], _ => ""
  | (k', v) :: t, k => if k' = k then v else jsGet t k

/-- JavaScript property write `row[k] = v`: updates the value in place if the
key exists, otherwise appends the new key at the end, as object assignment
does. -/
def jsSet : Row → String → String → Row
  | [], k, v => [(k, v)]
  | (k', v') :: t, k, v => if k' = k then (k, v) :: t else (k', v') :: jsSet t k v

/-- `lib/csv.js` `cleanCSVData`: keep rows having at least one non-excluded
field whose value is non-empty after trimming. -/
def cleanCSVData (data : List Row) (excludedFields : List String) : List Row :=
  data.filter (fun row =>
    row.any (fun p => !(excludedFields.contains p.1) && !(p.2 == "") && !(jsTrimS p.2 == "")))

/-- `lib/duplicates.js` `getFieldValues`: all non-excluded fields of a row
whose trimmed value is non-empty, mapped to their trimmed values. -/
def getFieldValues (row : Row) (excludedFields : List String) : List (String × String) :=
  (row.filter (fun p =>
      !(excludedFields.contains p.1) && !(p.2 == "") && !(jsTrimS p.2 == ""))).map
    (fun p => (p.1, jsTrimS p.2))

/-- The composite occurrence key `` `${field}:${value}` `` used by
`countOccurrences` and `findDuplicates`. -/
def mkKey (field value : String) : String := field ++ ":" ++ value

/-- The occurrence keys contributed by one row. -/
def rowKeys (row : Row) (excludedFields : List String) : List String :=
  (getFieldValues row excludedFields).map (fun p => mkKey p.1 p.2)

/-- `lib/duplicates.js` `countOccurrences`, as the function sending a key to
its count over the dataset (a key absent from the map counts 0, matching
`map.get(key)` being `undefined`, which fails the `> 1` test). -/
def countOccurrences (data : List Row) (excludedFields : List String) : String → Nat :=
  fun key => ((data.map (fun r => rowKeys r excludedFields)).flatten).count key

/-- The per-row inner loop of `findDuplicates`: walk the extracted field
values, and for each key with occurrence count `> 1` either record it as seen
(first occurrence) or push the field onto the row's duplicate-field list.
Returns the updated `seen` set and the accumulated duplicate fields. -/
def rowStep (occ : String → Nat) :
    List (String × String) → List String → List String → List String × List String
  | [], seen, fs => (seen, fs)
  | p :: rest, seen, fs =>
    if occ (mkKey p.1 p.2) > 1 then
      if mkKey p.1 p.2 ∈ seen then rowStep occ rest seen (fs ++ [p.1])
      else rowStep occ rest (mkKey p.1 p.2 :: seen) fs
    else rowStep occ rest seen fs

/-- The outer loop of `findDuplicates`: thread the `seen` set through the rows
in order, pairing every row with its duplicate-field list. -/
def classifyGo (occ : String → Nat) (excludedFields : List String) :
    List Row → List String → List (Row × List String)
  | [], _ => []
  | r :: rest, seen =>
    (r, (rowStep occ (getFieldValues r excludedFields) seen []).2) ::
      classifyGo occ excludedFields rest (rowStep occ (getFieldValues r excludedFields) seen []).1

/-- The classification computed by `findDuplicates`: every row paired with its
duplicate-field list, starting from an empty `seen` set. -/
def classifyAll (data : List Row) (occ : String → Nat) (excludedFields : List String) :
    List (Row × List String) :=
  classifyGo occ excludedFields data []

/-- `lib/duplicates.js` `findDuplicates`: the annotated result rows (every row
with a `duplicate` flag and a serialized `duplicateFields` string) and the
duplicates subset (rows with a non-empty duplicate-field list). -/
def findDuplicates (data : List Row) (occ : String → Nat) (excludedFields : List String) :
    List Row × List Row :=
  ((classifyAll data occ excludedFields).map (fun rc =>
      jsSet (jsSet rc.1 "duplicate" (if rc.2.isEmpty then "false" else "true"))
        "duplicateFields" (joinComma rc.2)),
    ((classifyAll data occ excludedFields).filter (fun rc => !rc.2.isEmpty)).map (fun rc =>
      jsSet rc.1 "duplicateFields" (joinComma rc.2)))

/-- `lib/duplicates.js` `findDuplicatesInData`: clean the data, build the
occurrence index over the cleaned data, then classify. -/
def findDuplicatesInData (data : List Row) (excludedFields : List String) :
    List Row × List Row :=
  findDuplicates (cleanCSVData data excludedFields)
    (countOccurrences (cleanCSVData data excludedFields) excludedFields) excludedFields

/-- The classification underlying `findDuplicatesInData` (same cleaned data
and occurrence index, before serialization of the duplicate-field lists). -/
def detectorClassification (data : List Row) (excludedFields : List String) :
    List (Row × List String) :=
  classifyAll (cleanCSVData data excludedFields)
    (countOccurrences (cleanCSVData data excludedFields) excludedFields) excludedFields

/-- Whether a row holds the FieldValue `(f, v)`, i.e. its extracted field
values contain exactly that pair. -/
def holdsFV (excludedFields : List String) (f v : String) (r : Row) : Bool :=
  (getFieldValues r excludedFields).contains (f, v)

/-- ai.js `getPromptType`: classify a field name by case-insensitive substring
matching, with the html-overrides-description precedence of the source. -/
def getPromptType (fieldName : String) : String :=
  let lowerFieldName := jsToLower fieldName
  if jsIncludes lowerFieldName "title" then "title"
  else if jsIncludes lowerFieldName "description" && !(jsIncludes lowerFieldName "html") then
    "description"
  else if jsIncludes lowerFieldName "html" then "html"
  else "general"

/-- `cleanVariation` rule 1: strip a leading triple-double-quote. -/
def cleanStep1 (s : List Char) : List Char :=
  if "\"\"\"".data.isPrefixOf s then s.drop 3 else s

/-- `cleanVariation` rule 2: strip a trailing triple-double-quote. -/
def cleanStep2 (s : List Char) : List Char :=
  if "\"\"\"".data.isSuffixOf s then s.take (s.length - 3) else s

/-- `cleanVariation` rule 3: if the string starts with a fenced code block
marker, drop through the first line break after the opening marker and, when a
distinct closing fence exists (`lastIndexOf > 0` on the original string),
truncate at the last fence of the shortened string; trim either way. -/
def cleanStep3 (s : List Char) : List Char :=
  if "```".data.isPrefixOf s then
    if jsLastIndexOf s "```".data > 0 then
      jsTrimL (jsTakeI (jsSubstringFrom s (jsIndexOf s "\n".data + 1))
        (jsLastIndexOf (jsSubstringFrom s (jsIndexOf s "\n".data + 1)) "```".data))
    else
      jsTrimL (jsSubstringFrom s (jsIndexOf s "\n".data + 1))
  else s

/-- `cleanVariation` rule 4: strip one leading double quote or backtick. -/
def cleanStep4 (s : List Char) : List Char :=
  if "\"".data.isPrefixOf s || "`".data.isPrefixOf s then s.drop 1 else s

/-- `cleanVariation` rule 5: strip one trailing double quote or backtick. -/
def cleanStep5 (s : List Char) : List Char :=
  if "\"".data.isSuffixOf s || "`".data.isSuffixOf s then s.take (s.length - 1) else s

/-- `cleanVariation` rule 6: if the string starts with an HTML comment opener,
drop through the first `-->` and trim. -/
def cleanStep6 (s : List Char) : List Char :=
  if "<!--".data.isPrefixOf s then
    jsTrimL (jsSubstringFrom s (jsIndexOf s "-->".data + 3))
  else s

/-- `cleanVariation` rule 7: if the string ends with `-->`, truncate at the
last `<!--` and trim. -/
def cleanStep7 (s : List Char) : List Char :=
  if "-->".data.isSuffixOf s then
    jsTrimL (jsTakeI s (jsLastIndexOf s "<!--".data))
  else s

/-- `cleanVariation` rule 8: trim when the string ends with a newline. -/
def cleanStep8 (s : List Char) : List Char :=
  if "\n".data.isSuffixOf s || "\r\n".data.isSuffixOf s then jsTrimL s else s

/-- ai.js `cleanVariation` on a character list: the eight strip rules applied
in order, each re-examining the current string. -/
def cleanVariationL (variation : List Char) : List Char :=
  cleanStep8 (cleanStep7 (cleanStep6 (cleanStep5 (cleanStep4
    (cleanStep3 (cleanStep2 (cleanStep1 variation)))))))

/-- ai.js `cleanVariation`. -/
def cleanVariation (variation : String) : String := ⟨cleanVariationL variation.data⟩

/-- Errors a single field generation can produce: the triple-quote
malformed-response error thrown by `generateVariation` itself, or any other
failure of the external text-generation call. -/
inductive GenError where
  | malformedResponse
  | generationFailure
deriving DecidableEq

/-- ai.js `generateVariation`, from the point the model response content is
received: trim the content, fail fast with the malformed-response error when
the trimmed string starts with a triple double quote, otherwise return the
sanitized string.  The prompt construction and the external Ollama call that
precede this are abstracted away; `rawContent` is the response's message
content. -/
def generateVariation (rawContent : String) : Except GenError String :=
  let rawVariation := jsTrimS rawContent
  if jsStartsWith rawVariation "\"\"\"" then Except.error GenError.malformedResponse
  else Except.ok (cleanVariation rawVariation)

/-- The abstracted per-field generation used by the batch orchestrator,
standing for `generateVariation(originalValue, handle, field, modelName)`
including the external model call: it may return a cleaned variation or fail
with any error. -/
def GenFun := String → String → String → String → Except GenError String

/-- batch.js `processBatch` row body: the duplicate-field list of a row,
`row.duplicateFields ? row.duplicateFields.split(',') : []`. -/
def dupFieldsOf (row : Row) : List String :=
  if jsGet row "duplicateFields" = "" then [] else jsSplitComma (jsGet row "duplicateFields")

/-- One iteration of the per-row field loop in `processBatch`: generate a
variation for `field`; on success store it under `field` and the original
under `original_<field>`, on any error fall back to the original for both. -/
def applyField (gen : GenFun) (modelName : String) (row : Row) (nr : Row) (field : String) :
    Row :=
  let originalValue := jsGet row field
  let handle := jsGet row "Handle"
  match gen originalValue handle field modelName with
  | Except.ok variation => jsSet (jsSet nr field variation) ("original_" ++ field) originalValue
  | Except.error _ => jsSet (jsSet nr field originalValue) ("original_" ++ field) originalValue

/-- The per-row body of `processBatch`: build the base record and process each
duplicate field in order. -/
def processRow (gen : GenFun) (modelName : String) (row : Row) : Row :=
  (dupFieldsOf row).foldl (applyField gen modelName row)
    [("ID", jsGet row "ID"), ("Handle", jsGet row "Handle"),
     ("Command", jsGet row "Command"), ("duplicate", "true"),
     ("duplicateFields", jsGet row "duplicateFields")]

/-- batch.js `processBatch`: all rows of a batch processed, results collected
positionally (`Promise.all` preserves the order of the mapped array,
regardless of completion order). -/
def processBatch (gen : GenFun) (modelName : String) (batch : List Row) : List Row :=
  batch.map (processRow gen modelName)

/-- Consecutive chunks of size `bs` (fuel-indexed for structural recursion;
`fuel = l.length` suffices whenever `bs ≥ 1`, mirroring the source's
`for (i = 0; i < n; i += batchSize)` loop, which does not terminate for
`bs = 0`). -/
def chunksAux (bs : Nat) : Nat → List Row → List (List Row)
  | 0, _ => []
  | _ + 1, [] => []
  | fuel + 1, x :: t => (x :: t).take bs :: chunksAux bs fuel ((x :: t).drop bs)

/-- The chunking of the duplicates list performed by
`generateVariationsForDuplicates`. -/
def chunks (bs : Nat) (l : List Row) : List (List Row) := chunksAux bs l.length l

/-- batch.js `generateVariationsForDuplicates`: short-circuit on an empty
list, otherwise process the chunks strictly in order and concatenate their
results. -/
def generateVariationsForDuplicates (gen : GenFun) (modelName : String)
    (duplicates : List Row) (batchSize : Nat) : List Row :=
  if duplicates.isEmpty then []
  else ((chunks batchSize duplicates).map (processBatch gen modelName)).flatten

/-- Counterexample dataset for the composite-key collision: field `a` with
value `b:c` and field `a:b` with value `c` produce the same key `a:b:c`. -/
def collisionData : List Row := [[("a", "b:c")], [("a:b", "c")]]

/-- A small dataset with a genuine duplicate: `T` has value `x` in the first
two rows and `y` in the third. -/
def dupData : List Row := [[("T", "x")], [("T", "x")], [("T", "y")]]

/-- A duplicates-list row whose `duplicateFields` names the identifier column
itself; reachable from the detector when `ID` is not excluded. -/
def idOverwriteRow : Row := [("ID", "1"), ("Handle", "h"), ("Command", "c"),
  ("duplicateFields", "ID")]

/-- A generator that always succeeds with the fixed string `X`. -/
def genConstX : GenFun := fun _ _ _ _ => Except.ok "X"

/-- A duplicates-list row with a duplicate field literally named
`original_x` next to the duplicate field `x`. -/
def originalCollisionRow : Row := [("ID", "1"), ("Handle", "h"), ("Command", "c"),
  ("duplicateFields", "x,original_x"), ("x", "vx"), ("original_x", "vo")]

/-- A generator failing exactly on field `x` and succeeding with `NEW`
elsewhere. -/
def genFailX : GenFun := fun _ _ field _ =>
  if field = "x" then Except.error GenError.generationFailure else Except.ok "NEW"

/-- A well-behaved duplicates-list row with duplicate fields `A` and `B`. -/
def isolationRow : Row := [("ID", "1"), ("Handle", "h"), ("Command", "c"),
  ("duplicateFields", "A,B"), ("A", "va"), ("B", "vb")]

/-- A generator failing exactly on field `A` and succeeding with `NB`
elsewhere. -/
def genFailA : GenFun := fun _ _ field _ =>
  if field = "A" then Except.error GenError.generationFailure else Except.ok "NB"

/-- A row of the order-preservation witness: identifier `n`, one duplicate
field `T`. -/
def orderRow (n : String) : Row := [("ID", n), ("Handle", "h"), ("Command", "c"),
  ("duplicateFields", "T"), ("T", "v")]

/-- Thirteen rows, to be processed with batch size 5 as chunks of 5, 5, 3. -/
def orderRows : List Row :=
  [orderRow "1", orderRow "2", orderRow "3", orderRow "4", orderRow "5",
   orderRow "6", orderRow "7", orderRow "8", orderRow "9", orderRow "10",
   orderRow "11", orderRow "12", orderRow "13"]

/-! ### Helper lemmas: sanitizer strip rules -/

theorem cleanStep1_id (s : List Char) (h : "\"\"\"".data.isPrefixOf s = false) :
    cleanStep1 s = s := by
  simp [cleanStep1, h]

theorem cleanStep2_id (s : List Char) (h : "\"\"\"".data.isSuffixOf s = false) :
    cleanStep2 s = s := by
  simp [cleanStep2, h]

theorem cleanStep3_id (s : List Char) (h : "```".data.isPrefixOf s = false) :
    cleanStep3 s = s := by
  simp [cleanStep3, h]

theorem cleanStep4_id (s : List Char) (h1 : "\"".data.isPrefixOf s = false)
    (h2 : "`".data.isPrefixOf s = false) : cleanStep4 s = s := by
  simp [cleanStep4, h1, h2]

theorem cleanStep5_id (s : List Char) (h1 : "\"".data.isSuffixOf s = false)
    (h2 : "`".data.isSuffixOf s = false) : cleanStep5 s = s := by
  simp [cleanStep5, h1, h2]

theorem cleanStep6_id (s : List Char) (h : "<!--".data.isPrefixOf s = false) :
    cleanStep6 s = s := by
  simp [cleanStep6, h]

theorem cleanStep7_id (s : List Char) (h : "-->".data.isSuffixOf s = false) :
    cleanStep7 s = s := by
  simp [cleanStep7, h]

theorem crnl_suffix_false (s : List Char) (h : "\n".data.isSuffixOf s = false) :
    "\r\n".data.isSuffixOf s = false := by
  by_contra hc
  rw [Bool.not_eq_false, List.isSuffixOf_iff_suffix] at hc
  rw [← Bool.not_eq_true, List.isSuffixOf_iff_suffix] at h
  exact h (List.IsSuffix.trans (by decide) hc)

theorem cleanStep8_id (s : List Char) (h1 : "\n".data.isSuffixOf s = false) :
    cleanStep8 s = s := by
  simp [cleanStep8, h1, crnl_suffix_false s h1]

/-! ### Claims about the sanitizer and the single-field generator -/

/-- Claim C6: `cleanVariation` applied to the exact string
`"""Hello World"""` returns `Hello World`, and applied to the fenced html
code block containing `<p>Hi</p>` returns `<p>Hi</p>`. -/
theorem c6_sanitizer_synthetic_wrapping :
    cleanVariation "\"\"\"Hello World\"\"\"" = "Hello World" ∧
    cleanVariation "```html\n<p>Hi</p>\n```" = "<p>Hi</p>" :=
  ⟨by decide, by decide⟩

/-- Claim C7: on a string where no strip rule's condition holds (no
leading/trailing triple quote, no leading code fence, no leading/trailing
single double-quote or backtick, no leading `<!--`, no trailing `-->`, no
trailing newline), `cleanVariation` is the identity, hence applying it twice
also returns the string unchanged. -/
theorem c7_sanitizer_idempotent (s : String)
    (h1 : jsStartsWith s "\"\"\"" = false) (h2 : jsEndsWith s "\"\"\"" = false)
    (h3 : jsStartsWith s "```" = false)
    (h4 : jsStartsWith s "\"" = false) (h5 : jsStartsWith s "`" = false)
    (h6 : jsEndsWith s "\"" = false) (h7 : jsEndsWith s "`" = false)
    (h8 : jsStartsWith s "<!--" = false) (h9 : jsEndsWith s "-->" = false)
    (h10 : jsEndsWith s "\n" = false) :
    cleanVariation s = s ∧ cleanVariation (cleanVariation s) = s := by
  simp only [jsStartsWith, jsEndsWith] at h1 h2 h3 h4 h5 h6 h7 h8 h9 h10
  have e : cleanVariation s = s := by
    show (⟨cleanVariationL s.data⟩ : String) = s
    rw [cleanVariationL, cleanStep1_id _ h1, cleanStep2_id _ h2, cleanStep3_id _ h3,
      cleanStep4_id _ h4 h5, cleanStep5_id _ h6 h7, cleanStep6_id _ h8,
      cleanStep7_id _ h9, cleanStep8_id _ h10]
  exact ⟨e, by rw [e, e]⟩

/-- Witness for C7 at the concrete clean string `Hello`. -/
theorem c7_witness :
    (jsStartsWith "Hello" "\"\"\"" = false ∧ jsEndsWith "Hello" "\"\"\"" = false ∧
     jsStartsWith "Hello" "```" = false ∧ jsStartsWith "Hello" "\"" = false ∧
     jsStartsWith "Hello" "`" = false ∧ jsEndsWith "Hello" "\"" = false ∧
     jsEndsWith "Hello" "`" = false ∧ jsStartsWith "Hello" "<!--" = false ∧
     jsEndsWith "Hello" "-->" = false ∧ jsEndsWith "Hello" "\n" = false) ∧
    cleanVariation "Hello" = "Hello" ∧
    cleanVariation (cleanVariation "Hello") = "Hello" :=
  ⟨⟨by decide, by decide, by decide, by decide, by decide, by decide, by decide,
    by decide, by decide, by decide⟩,
   c7_sanitizer_idempotent "Hello" (by decide) (by decide) (by decide) (by decide) (by decide)
     (by decide) (by decide) (by decide) (by decide) (by decide)⟩

/-- Claim C5: `generateVariation` fails with the malformed-response error
exactly when the raw response (the trimmed model response content, the string
the sanitizer would otherwise receive) starts with `"""`; in that case no
value is produced, and otherwise it returns the sanitized response. -/
theorem c5_fail_fast_triple_quote (rawContent : String) :
    (generateVariation rawContent = Except.error GenError.malformedResponse ↔
      jsStartsWith (jsTrimS rawContent) "\"\"\"" = true) ∧
    (jsStartsWith (jsTrimS rawContent) "\"\"\"" = false →
      generateVariation rawContent = Except.ok (cleanVariation (jsTrimS rawContent))) := by
  by_cases h : jsStartsWith (jsTrimS rawContent) "\"\"\"" = true
  · simp [generateVariation, h]
  · simp only [Bool.not_eq_true] at h
    simp [generateVariation, h]

/-- Witness for C5: a throwing response and a clean response, both concrete. -/
theorem c5_witness :
    (jsStartsWith (jsTrimS "\"\"\"bad") "\"\"\"" = true ∧
      generateVariation "\"\"\"bad" = Except.error GenError.malformedResponse) ∧
    (jsStartsWith (jsTrimS "hello") "\"\"\"" = false ∧
      generateVariation "hello" = Except.ok (cleanVariation (jsTrimS "hello"))) :=
  ⟨⟨by decide, (c5_fail_fast_triple_quote "\"\"\"bad").1.mpr (by decide)⟩,
   ⟨by decide, (c5_fail_fast_triple_quote "hello").2 (by decide)⟩⟩

/-- Claim C10: for every model response, `generateVariation` either throws
the malformed-response error (when the trimmed raw response starts with
`"""`), or it hands `cleanVariation` a string that does not start with `"""`,
on which the sanitizer's first strip rule is the identity — so inside
`generateVariation` that rule never fires. -/
theorem c10_first_rule_unreachable (rawContent : String) :
    generateVariation rawContent = Except.error GenError.malformedResponse ∨
    (jsStartsWith (jsTrimS rawContent) "\"\"\"" = false ∧
     cleanStep1 (jsTrimS rawContent).data = (jsTrimS rawContent).data ∧
     generateVariation rawContent = Except.ok (cleanVariation (jsTrimS rawContent))) := by
  by_cases h : jsStartsWith (jsTrimS rawContent) "\"\"\"" = true
  · exact Or.inl (by simp [generateVariation, h])
  · simp only [Bool.not_eq_true] at h
    refine Or.inr ⟨h, cleanStep1_id _ ?_, by simp [generateVariation, h]⟩
    simpa [jsStartsWith] using h

/-- Claim C4: `getPromptType` classifies by the source's precedence —
`title` wins, then `description` (only when `html` is absent), then `html`,
else `general` — and on the four concrete field names of the claim it yields
`html`, `title`, `description` and `general` respectively. -/
theorem c4_classification_precedence :
    (∀ fieldName : String,
      (jsIncludes (jsToLower fieldName) "title" = true →
        getPromptType fieldName = "title") ∧
      (jsIncludes (jsToLower fieldName) "title" = false →
        jsIncludes (jsToLower fieldName) "description" = true →
        jsIncludes (jsToLower fieldName) "html" = false →
        getPromptType fieldName = "description") ∧
      (jsIncludes (jsToLower fieldName) "title" = false →
        jsIncludes (jsToLower fieldName) "html" = true →
        getPromptType fieldName = "html") ∧
      (jsIncludes (jsToLower fieldName) "title" = false →
        jsIncludes (jsToLower fieldName) "description" = false →
        jsIncludes (jsToLower fieldName) "html" = false →
        getPromptType fieldName = "general")) ∧
    getPromptType "Body HTML Description" = "html" ∧
    getPromptType "SEO Title" = "title" ∧
    getPromptType "Meta Description" = "description" ∧
    getPromptType "Random Field" = "general" := by
  refine ⟨fun fieldName => ⟨?_, ?_, ?_, ?_⟩, by decide, by decide, by decide, by decide⟩
  all_goals intros
  all_goals simp [getPromptType, *]

/-- Witness for C4 at the concrete field name `SEO Title`. -/
theorem c4_witness :
    jsIncludes (jsToLower "SEO Title") "title" = true ∧
    getPromptType "SEO Title" = "title" :=
  ⟨by decide, (c4_classification_precedence.1 "SEO Title").1 (by decide)⟩

/-! ### Helper lemmas: object reads/writes and the batch loop -/

theorem jsGet_jsSet_same (r : Row) (k v : String) : jsGet (jsSet r k v) k = v := by
  induction r with
  | nil => simp [jsSet, jsGet]
  | cons p t ih =>
    obtain ⟨k', v'⟩ := p
    by_cases h : k' = k <;> simp [jsSet, jsGet, h, ih]

theorem jsGet_jsSet_other (r : Row) (k k' v : String) (h : k' ≠ k) :
    jsGet (jsSet r k' v) k = jsGet r k := by
  induction r with
  | nil => simp [jsSet, jsGet, h]
  | cons p t ih =>
    obtain ⟨k'', v''⟩ := p
    by_cases h2 : k'' = k'
    · subst h2
      simp [jsSet, jsGet, h]
    · by_cases h3 : k'' = k <;> simp [jsSet, jsGet, h2, h3, ih, Ne.symm h]

theorem original_data (f : String) :
    ("original_" ++ f).data = "original_".data ++ f.data :=
  String.data_append _ _

theorem original_ne_ID (f : String) : ("original_" ++ f) ≠ "ID" := by
  intro h
  have h2 : ("original_" ++ f).data.length = ("ID" : String).data.length := by rw [h]
  rw [original_data, List.length_append] at h2
  have e1 : ("original_" : String).data.length = 9 := by decide
  have e2 : ("ID" : String).data.length = 2 := by decide
  omega

theorem original_ne_self (f : String) : ("original_" ++ f) ≠ f := by
  intro h
  have h2 : ("original_" ++ f).data.length = f.data.length := by rw [h]
  rw [original_data, List.length_append] at h2
  have e1 : ("original_" : String).data.length = 9 := by decide
  omega

theorem original_inj (f g : String) (h : ("original_" ++ f) = ("original_" ++ g)) : f = g := by
  have h2 : ("original_" ++ f).data = ("original_" ++ g).data := by rw [h]
  rw [original_data, original_data] at h2
  exact String.ext (List.append_cancel_left h2)

theorem applyField_get_other (gen : GenFun) (modelName : String) (row nr : Row)
    (field key : String) (hk1 : field ≠ key) (hk2 : ("original_" ++ field) ≠ key) :
    jsGet (applyField gen modelName row nr field) key = jsGet nr key := by
  cases hg : gen (jsGet row field) (jsGet row "Handle") field modelName with
  | ok v =>
    simp only [applyField, hg]
    rw [jsGet_jsSet_other _ _ _ _ hk2, jsGet_jsSet_other _ _ _ _ hk1]
  | error e =>
    simp only [applyField, hg]
    rw [jsGet_jsSet_other _ _ _ _ hk2, jsGet_jsSet_other _ _ _ _ hk1]

theorem foldl_applyField_get_other (gen : GenFun) (modelName : String) (row : Row)
    (fields : List String) (key : String)
    (h : ∀ f ∈ fields, f ≠ key ∧ ("original_" ++ f) ≠ key) :
    ∀ nr : Row, jsGet (fields.foldl (applyField gen modelName row) nr) key = jsGet nr key := by
  induction fields with
  | nil => intro nr; rfl
  | cons g rest ih =>
    intro nr
    rw [List.foldl_cons, ih (fun f hf => h f (List.mem_cons_of_mem _ hf)),
      applyField_get_other gen modelName row nr g key (h g (List.mem_cons_self _ _)).1
        (h g (List.mem_cons_self _ _)).2]

theorem foldl_applyField_get_field (gen : GenFun) (modelName : String) (row : Row)
    (fields : List String) (f : String) (hf : f ∈ fields) (hnd : fields.Nodup)
    (hoc : ∀ g ∈ fields, ∀ g' ∈ fields, ("original_" ++ g) ≠ g') :
    ∀ nr : Row,
      jsGet (fields.foldl (applyField gen modelName row) nr) f =
        (match gen (jsGet row f) (jsGet row "Handle") f modelName with
          | Except.ok v => v
          | Except.error _ => jsGet row f) ∧
      jsGet (fields.foldl (applyField gen modelName row) nr) ("original_" ++ f) =
        jsGet row f := by
  induction fields with
  | nil => exact absurd hf (List.not_mem_nil f)
  | cons g rest ih =>
    intro nr
    rcases List.mem_cons.mp hf with heq | hrest
    · subst heq
      have hnotrest : f ∉ rest := (List.nodup_cons.mp hnd).1
      rw [List.foldl_cons]
      have hother1 : ∀ x ∈ rest, x ≠ f ∧ ("original_" ++ x) ≠ f := by
        intro x hx
        refine ⟨fun hxg => hnotrest (hxg ▸ hx), ?_⟩
        exact hoc x (List.mem_cons_of_mem _ hx) f (List.mem_cons_self _ _)
      have hother2 : ∀ x ∈ rest, x ≠ ("original_" ++ f) ∧
          ("original_" ++ x) ≠ ("original_" ++ f) := by
        intro x hx
        refine ⟨fun hxg => ?_, fun hxg => hnotrest ((original_inj x f hxg) ▸ hx)⟩
        exact hoc f (List.mem_cons_self _ _) x (List.mem_cons_of_mem _ hx) hxg.symm
      rw [foldl_applyField_get_other gen modelName row rest f hother1,
        foldl_applyField_get_other gen modelName row rest ("original_" ++ f) hother2]
      cases hg : gen (jsGet row f) (jsGet row "Handle") f modelName with
      | ok v =>
        simp only [applyField, hg]
        exact ⟨by rw [jsGet_jsSet_other _ _ _ _ (original_ne_self f), jsGet_jsSet_same],
          by rw [jsGet_jsSet_same]⟩
      | error e =>
        simp only [applyField, hg]
        exact ⟨by rw [jsGet_jsSet_other _ _ _ _ (original_ne_self f), jsGet_jsSet_same],
          by rw [jsGet_jsSet_same]⟩
    · rw [List.foldl_cons]
      exact ih hrest (List.nodup_cons.mp hnd).2
        (fun x hx y hy =>
          hoc x (List.mem_cons_of_mem _ hx) y (List.mem_cons_of_mem _ hy)) _

theorem processRow_get_ID (gen : GenFun) (modelName : String) (row : Row)
    (hid : "ID" ∉ dupFieldsOf row) :
    jsGet (processRow gen modelName row) "ID" = jsGet row "ID" := by
  unfold processRow
  rw [foldl_applyField_get_other gen modelName row (dupFieldsOf row) "ID"
    (fun f hf => ⟨fun hfid => hid (hfid ▸ hf), original_ne_ID f⟩)]
  simp [jsGet]

theorem chunksAux_flatten (bs : Nat) (hbs : 1 ≤ bs) :
    ∀ (fuel : Nat) (l : List Row), l.length ≤ fuel → (chunksAux bs fuel l).flatten = l := by
  intro fuel
  induction fuel with
  | zero =>
    intro l hl
    rw [List.length_eq_zero.mp (Nat.le_zero.mp hl)]
    rfl
  | succ n ih =>
    intro l hl
    cases l with
    | nil => rfl
    | cons x t =>
      have hdrop : ((x :: t).drop bs).length ≤ n := by
        rw [List.length_drop]
        simp only [List.length_cons] at hl ⊢
        omega
      rw [chunksAux, List.flatten_cons, ih _ hdrop, List.take_append_drop]

theorem run_eq_map (gen : GenFun) (modelName : String) (dups : List Row) (bs : Nat)
    (hbs : 1 ≤ bs) :
    generateVariationsForDuplicates gen modelName dups bs =
      dups.map (processRow gen modelName) := by
  unfold generateVariationsForDuplicates
  by_cases h : dups.isEmpty
  · rw [List.isEmpty_iff.mp h]
    rfl
  · rw [if_neg h]
    unfold processBatch
    rw [← List.map_flatten]
    unfold chunks
    rw [chunksAux_flatten bs hbs dups.length dups (Nat.le_refl _)]

/-! ### Claims about the batch orchestrator -/

/-- Claim C8 (amended): for every duplicates list none of whose rows lists the
identifier column `ID` among its duplicate fields, and every positive batch
size, the orchestrator returns exactly one record per input row and the output
sequence of row identifiers equals the input sequence.  (The concurrent
completion order inside a chunk is abstracted away by the embedding, as
`Promise.all` collects results positionally.) -/
theorem c8_order_preservation (gen : GenFun) (modelName : String) (dups : List Row)
    (bs : Nat) (hbs : 1 ≤ bs) (hid : ∀ r ∈ dups, "ID" ∉ dupFieldsOf r) :
    (generateVariationsForDuplicates gen modelName dups bs).length = dups.length ∧
    (generateVariationsForDuplicates gen modelName dups bs).map (fun r => jsGet r "ID") =
      dups.map (fun r => jsGet r "ID") := by
  rw [run_eq_map gen modelName dups bs hbs]
  refine ⟨List.length_map _ _, ?_⟩
  rw [List.map_map]
  exact List.map_congr_left (fun r hr => processRow_get_ID gen modelName r (hid r hr))

/-- Counterexample to C8 as stated: a duplicates row whose `duplicateFields`
is `ID` has its identifier overwritten by the generated value, so the output
identifier sequence differs from the input one. -/
theorem c8_counterexample :
    (generateVariationsForDuplicates genConstX "m" [idOverwriteRow] 5).length = 1 ∧
    (generateVariationsForDuplicates genConstX "m" [idOverwriteRow] 5).map
        (fun r => jsGet r "ID") = ["X"] ∧
    [idOverwriteRow].map (fun r => jsGet r "ID") = ["1"] ∧
    (generateVariationsForDuplicates genConstX "m" [idOverwriteRow] 5).map
        (fun r => jsGet r "ID") ≠ [idOverwriteRow].map (fun r => jsGet r "ID") :=
  ⟨by decide, by decide, by decide, by decide⟩

/-- Witness for C8 at the claim's own example: 13 rows, batch size 5
(chunks of 5, 5, 3). -/
theorem c8_witness :
    (1 ≤ 5 ∧ ∀ r ∈ orderRows, "ID" ∉ dupFieldsOf r) ∧
    (generateVariationsForDuplicates genConstX "m" orderRows 5).length = orderRows.length ∧
    (generateVariationsForDuplicates genConstX "m" orderRows 5).map (fun r => jsGet r "ID") =
      orderRows.map (fun r => jsGet r "ID") :=
  ⟨⟨by decide, by decide⟩,
   c8_order_preservation genConstX "m" orderRows 5 (by decide) (by decide)⟩

/-- Claim C9 (amended): for every positive batch size the orchestrator
processes every row independently and completely (the run equals the per-row
map, so no generation outcome aborts a batch or the run), and for every row
whose duplicate-field names are distinct and do not use the reserved
`original_<field>` naming, a field whose generation fails carries the original
value both as the field value and as `original_<field>`, while a field whose
generation succeeds carries the generated value, with its original kept under
`original_<field>`. -/
theorem c9_failure_isolation (gen : GenFun) (modelName : String) (dups : List Row)
    (bs : Nat) (hbs : 1 ≤ bs) :
    generateVariationsForDuplicates gen modelName dups bs =
      dups.map (processRow gen modelName) ∧
    ∀ row : Row, (dupFieldsOf row).Nodup →
      (∀ f ∈ dupFieldsOf row, ∀ g ∈ dupFieldsOf row, ("original_" ++ f) ≠ g) →
      ∀ f ∈ dupFieldsOf row,
        (∀ e : GenError, gen (jsGet row f) (jsGet row "Handle") f modelName = Except.error e →
          jsGet (processRow gen modelName row) f = jsGet row f ∧
          jsGet (processRow gen modelName row) ("original_" ++ f) = jsGet row f) ∧
        (∀ v : String, gen (jsGet row f) (jsGet row "Handle") f modelName = Except.ok v →
          jsGet (processRow gen modelName row) f = v ∧
          jsGet (processRow gen modelName row) ("original_" ++ f) = jsGet row f) := by
  refine ⟨run_eq_map gen modelName dups bs hbs, ?_⟩
  intro row hnd hoc f hf
  have h := foldl_applyField_get_field gen modelName row (dupFieldsOf row) f hf hnd hoc
    [("ID", jsGet row "ID"), ("Handle", jsGet row "Handle"),
     ("Command", jsGet row "Command"), ("duplicate", "true"),
     ("duplicateFields", jsGet row "duplicateFields")]
  constructor
  · intro e he
    have h2 := h
    rw [he] at h2
    exact ⟨h2.1, h2.2⟩
  · intro v hv
    have h2 := h
    rw [hv] at h2
    exact ⟨h2.1, h2.2⟩

/-- Counterexample to C9 as stated: with duplicate fields `x` and
`original_x` in the same row and generation failing exactly for `x`, the
record's `original_x` slot ends up holding the generated value for the
`original_x` field rather than the original value of the failed field `x`. -/
theorem c9_counterexample :
    genFailX (jsGet originalCollisionRow "x") (jsGet originalCollisionRow "Handle") "x" "m" =
      Except.error GenError.generationFailure ∧
    (generateVariationsForDuplicates genFailX "m" [originalCollisionRow] 5).map
        (fun r => jsGet r ("original_" ++ "x")) = ["NEW"] ∧
    jsGet originalCollisionRow "x" = "vx" ∧
    (generateVariationsForDuplicates genFailX "m" [originalCollisionRow] 5).map
        (fun r => jsGet r ("original_" ++ "x")) ≠ [jsGet originalCollisionRow "x"] :=
  ⟨rfl, by decide, by decide, by decide⟩

/-- Witness for C9: one row with duplicate fields `A` and `B`, generation
failing on `A` and succeeding with `NB` on `B`. -/
theorem c9_witness :
    (1 ≤ 5 ∧ (dupFieldsOf isolationRow).Nodup ∧
      (∀ f ∈ dupFieldsOf isolationRow, ∀ g ∈ dupFieldsOf isolationRow,
        ("original_" ++ f) ≠ g)) ∧
    generateVariationsForDuplicates genFailA "m" [isolationRow] 5 =
      [isolationRow].map (processRow genFailA "m") ∧
    jsGet (processRow genFailA "m" isolationRow) "A" = jsGet isolationRow "A" ∧
    jsGet (processRow genFailA "m" isolationRow) ("original_" ++ "A") =
      jsGet isolationRow "A" ∧
    jsGet (processRow genFailA "m" isolationRow) "B" = "NB" ∧
    jsGet (processRow genFailA "m" isolationRow) ("original_" ++ "B") =
      jsGet isolationRow "B" := by
  have h := c9_failure_isolation genFailA "m" [isolationRow] 5 (by decide)
  have hA := (h.2 isolationRow (by decide) (by decide) "A" (by decide)).1
    GenError.generationFailure rfl
  have hB := (h.2 isolationRow (by decide) (by decide) "B" (by decide)).2 "NB" rfl
  exact ⟨⟨by decide, by decide, by decide⟩, h.1, hA.1, hA.2, hB.1, hB.2⟩

/-! ### Helper lemmas: the duplicate detector -/

theorem holdsFV_mem (ex : List String) (f v : String) (r : Row) :
    holdsFV ex f v r = true ↔ (f, v) ∈ getFieldValues r ex := by
  simp [holdsFV]

theorem gfv_fst_nodup (r : Row) (ex : List String) (h : (r.map Prod.fst).Nodup) :
    ((getFieldValues r ex).map Prod.fst).Nodup := by
  unfold getFieldValues
  rw [List.map_map]
  have he : ((r.filter (fun p =>
      !(ex.contains p.1) && !(p.2 == "") && !(jsTrimS p.2 == ""))).map
        (Prod.fst ∘ fun p => (p.1, jsTrimS p.2))) =
      (r.filter (fun p =>
        !(ex.contains p.1) && !(p.2 == "") && !(jsTrimS p.2 == ""))).map Prod.fst := by
    apply List.map_congr_left
    intro p _
    rfl
  rw [he]
  exact List.Nodup.sublist (List.Sublist.map Prod.fst (List.filter_sublist r)) h

theorem rowStep_seen_mono (occ : String → Nat) :
    ∀ (fvs : List (String × String)) (seen fs : List String) (x : String),
      x ∈ seen → x ∈ (rowStep occ fvs seen fs).1 := by
  intro fvs
  induction fvs with
  | nil => intro seen fs x hx; simpa [rowStep] using hx
  | cons p rest ih =>
    intro seen fs x hx
    by_cases h1 : occ (mkKey p.1 p.2) > 1
    · by_cases h2 : mkKey p.1 p.2 ∈ seen
      · simp only [rowStep]
        rw [if_pos h1, if_pos h2]
        exact ih _ _ _ hx
      · simp only [rowStep]
        rw [if_pos h1, if_neg h2]
        exact ih _ _ _ (List.mem_cons_of_mem _ hx)
    · simp only [rowStep]
      rw [if_neg h1]
      exact ih _ _ _ hx

theorem rowStep_fs_mono (occ : String → Nat) :
    ∀ (fvs : List (String × String)) (seen fs : List String) (x : String),
      x ∈ fs → x ∈ (rowStep occ fvs seen fs).2 := by
  intro fvs
  induction fvs with
  | nil => intro seen fs x hx; simpa [rowStep] using hx
  | cons p rest ih =>
    intro seen fs x hx
    by_cases h1 : occ (mkKey p.1 p.2) > 1
    · by_cases h2 : mkKey p.1 p.2 ∈ seen
      · simp only [rowStep]
        rw [if_pos h1, if_pos h2]
        exact ih _ _ _ (List.mem_append_left _ hx)
      · simp only [rowStep]
        rw [if_pos h1, if_neg h2]
        exact ih _ _ _ hx
    · simp only [rowStep]
      rw [if_neg h1]
      exact ih _ _ _ hx

theorem rowStep_seen_stable (occ : String → Nat) (k : String) :
    ∀ (fvs : List (String × String)) (seen fs : List String),
      (∀ p ∈ fvs, mkKey p.1 p.2 ≠ k) →
      (k ∈ (rowStep occ fvs seen fs).1 ↔ k ∈ seen) := by
  intro fvs
  induction fvs with
  | nil => intro seen fs _; simp [rowStep]
  | cons p rest ih =>
    intro seen fs hk
    have hp := hk p (List.mem_cons_self _ _)
    have hrest : ∀ q ∈ rest, mkKey q.1 q.2 ≠ k :=
      fun q hq => hk q (List.mem_cons_of_mem _ hq)
    by_cases h1 : occ (mkKey p.1 p.2) > 1
    · by_cases h2 : mkKey p.1 p.2 ∈ seen
      · simp only [rowStep]
        rw [if_pos h1, if_pos h2]
        exact ih _ _ hrest
      · simp only [rowStep]
        rw [if_pos h1, if_neg h2, ih _ _ hrest]
        simp [List.mem_cons, Ne.symm hp]
    · simp only [rowStep]
      rw [if_neg h1]
      exact ih _ _ hrest

theorem rowStep_push (occ : String → Nat) (f v : String) (hocc : occ (mkKey f v) > 1) :
    ∀ (fvs : List (String × String)) (seen fs : List String),
      (f, v) ∈ fvs → mkKey f v ∈ seen → f ∈ (rowStep occ fvs seen fs).2 := by
  intro fvs
  induction fvs with
  | nil => intro seen fs hmem; exact absurd hmem (List.not_mem_nil _)
  | cons p rest ih =>
    intro seen fs hmem hks
    rcases List.mem_cons.mp hmem with heq | hrest
    · subst heq
      simp only [rowStep]
      rw [if_pos hocc, if_pos hks]
      exact rowStep_fs_mono occ _ _ _ _ (List.mem_append_right _ (List.mem_singleton.mpr rfl))
    · by_cases h1 : occ (mkKey p.1 p.2) > 1
      · by_cases h2 : mkKey p.1 p.2 ∈ seen
        · simp only [rowStep]
          rw [if_pos h1, if_pos h2]
          exact ih _ _ hrest hks
        · simp only [rowStep]
          rw [if_pos h1, if_neg h2]
          exact ih _ _ hrest (List.mem_cons_of_mem _ hks)
      · simp only [rowStep]
        rw [if_neg h1]
        exact ih _ _ hrest hks

theorem rowStep_no_field (occ : String → Nat) (f : String) :
    ∀ (fvs : List (String × String)) (seen fs : List String),
      (∀ p ∈ fvs, p.1 ≠ f) → f ∉ fs → f ∉ (rowStep occ fvs seen fs).2 := by
  intro fvs
  induction fvs with
  | nil => intro seen fs _ hfs; simpa [rowStep] using hfs
  | cons p rest ih =>
    intro seen fs hp hfs
    have hp1 := hp p (List.mem_cons_self _ _)
    have hrest : ∀ q ∈ rest, q.1 ≠ f := fun q hq => hp q (List.mem_cons_of_mem _ hq)
    by_cases h1 : occ (mkKey p.1 p.2) > 1
    · by_cases h2 : mkKey p.1 p.2 ∈ seen
      · simp only [rowStep]
        rw [if_pos h1, if_pos h2]
        refine ih _ _ hrest ?_
        intro hmem
        rcases List.mem_append.mp hmem with h | h
        · exact hfs h
        · exact hp1 (List.mem_singleton.mp h).symm
      · simp only [rowStep]
        rw [if_pos h1, if_neg h2]
        exact ih _ _ hrest hfs
    · simp only [rowStep]
      rw [if_neg h1]
      exact ih _ _ hrest hfs

theorem rowStep_first (occ : String → Nat) (f v : String) (hocc : occ (mkKey f v) > 1) :
    ∀ (fvs : List (String × String)) (seen fs : List String),
      (fvs.map Prod.fst).Nodup →
      (∀ p ∈ fvs, mkKey p.1 p.2 = mkKey f v → p = (f, v)) →
      (f, v) ∈ fvs → mkKey f v ∉ seen → f ∉ fs →
      f ∉ (rowStep occ fvs seen fs).2 ∧ mkKey f v ∈ (rowStep occ fvs seen fs).1 := by
  intro fvs
  induction fvs with
  | nil => intro seen fs _ _ hmem; exact absurd hmem (List.not_mem_nil _)
  | cons p rest ih =>
    intro seen fs hnd huk hmem hks hfs
    rcases List.mem_cons.mp hmem with heq | hrest
    · subst heq
      rw [List.map_cons] at hnd
      have hfnotin : f ∉ rest.map Prod.fst := (List.nodup_cons.mp hnd).1
      simp only [rowStep]
      rw [if_pos hocc, if_neg hks]
      refine ⟨rowStep_no_field occ f _ _ _ ?_ hfs,
        rowStep_seen_mono occ _ _ _ _ (List.mem_cons_self _ _)⟩
      intro q hq hq1
      exact hfnotin (hq1 ▸ List.mem_map_of_mem Prod.fst hq)
    · rw [List.map_cons] at hnd
      have hfin : f ∈ rest.map Prod.fst := List.mem_map.mpr ⟨(f, v), hrest, rfl⟩
      have hp1 : p.1 ≠ f := by
        intro hp1
        exact (List.nodup_cons.mp hnd).1 (hp1 ▸ hfin)
      have hpk : mkKey p.1 p.2 ≠ mkKey f v := by
        intro hk
        have := huk p (List.mem_cons_self _ _) hk
        exact hp1 (by rw [this])
      have hndr : (rest.map Prod.fst).Nodup := (List.nodup_cons.mp hnd).2
      have hukr : ∀ q ∈ rest, mkKey q.1 q.2 = mkKey f v → q = (f, v) :=
        fun q hq => huk q (List.mem_cons_of_mem _ hq)
      by_cases h1 : occ (mkKey p.1 p.2) > 1
      · by_cases h2 : mkKey p.1 p.2 ∈ seen
        · simp only [rowStep]
          rw [if_pos h1, if_pos h2]
          refine ih _ _ hndr hukr hrest hks ?_
          intro hmem2
          rcases List.mem_append.mp hmem2 with h | h
          · exact hfs h
          · exact hp1 (List.mem_singleton.mp h).symm
        · simp only [rowStep]
          rw [if_pos h1, if_neg h2]
          refine ih _ _ hndr hukr hrest ?_ hfs
          intro hmem2
          rcases List.mem_cons.mp hmem2 with h | h
          · exact hpk h.symm
          · exact hks h
      · simp only [rowStep]
        rw [if_neg h1]
        exact ih _ _ hndr hukr hrest hks hfs

theorem classifyGo_post (occ : String → Nat) (ex : List String) (f v : String)
    (hocc : occ (mkKey f v) > 1) :
    ∀ (rows : List Row) (seen : List String), mkKey f v ∈ seen →
      ∀ rc ∈ classifyGo occ ex rows seen, holdsFV ex f v rc.1 = true → f ∈ rc.2 := by
  intro rows
  induction rows with
  | nil => intro seen _ rc hrc; simp [classifyGo] at hrc
  | cons r rest ih =>
    intro seen hk rc hrc hold
    simp only [classifyGo, List.mem_cons] at hrc
    rcases hrc with heq | hmem
    · subst heq
      exact rowStep_push occ f v hocc _ _ _ ((holdsFV_mem ex f v r).mp hold) hk
    · exact ih _ (rowStep_seen_mono occ _ _ _ _ hk) rc hmem hold

theorem classifyGo_pre (occ : String → Nat) (ex : List String) (f v : String)
    (hocc : occ (mkKey f v) > 1) :
    ∀ (rows : List Row) (seen : List String),
      (∀ r ∈ rows, (r.map Prod.fst).Nodup) →
      (∀ r ∈ rows, ∀ p ∈ getFieldValues r ex, mkKey p.1 p.2 = mkKey f v → p = (f, v)) →
      mkKey f v ∉ seen →
      ∀ hd tl,
        (classifyGo occ ex rows seen).filter (fun rc => holdsFV ex f v rc.1) = hd :: tl →
        f ∉ hd.2 ∧ ∀ rc ∈ tl, f ∈ rc.2 := by
  intro rows
  induction rows with
  | nil => intro seen _ _ _ hd tl h; simp [classifyGo] at h
  | cons r rest ih =>
    intro seen hw hnc hks hd tl h
    simp only [classifyGo] at h
    simp only [List.filter_cons] at h
    by_cases hold : holdsFV ex f v r = true
    · rw [if_pos hold] at h
      injection h with hhd htl
      have hfirst := rowStep_first occ f v hocc (getFieldValues r ex) seen []
        (gfv_fst_nodup r ex (hw r (List.mem_cons_self _ _)))
        (hnc r (List.mem_cons_self _ _)) ((holdsFV_mem ex f v r).mp hold) hks
        (List.not_mem_nil f)
      constructor
      · rw [← hhd]
        exact hfirst.1
      · intro rc hrc
        rw [← htl] at hrc
        have hrc2 := List.mem_filter.mp hrc
        exact classifyGo_post occ ex f v hocc rest _ hfirst.2 rc hrc2.1 hrc2.2
    · rw [if_neg hold] at h
      have hnokeys : ∀ p ∈ getFieldValues r ex, mkKey p.1 p.2 ≠ mkKey f v := by
        intro p hp hpk
        have hp2 := hnc r (List.mem_cons_self _ _) p hp hpk
        exact hold ((holdsFV_mem ex f v r).mpr (hp2 ▸ hp))
      refine ih _ (fun q hq => hw q (List.mem_cons_of_mem _ hq))
        (fun q hq => hnc q (List.mem_cons_of_mem _ hq)) ?_ hd tl h
      intro hk2
      exact hks ((rowStep_seen_stable occ (mkKey f v) _ _ _ hnokeys).mp hk2)

theorem keys_count_zero (k : String) (l : List (String × String))
    (hl : ∀ p ∈ l, mkKey p.1 p.2 ≠ k) :
    (l.map (fun p => mkKey p.1 p.2)).count k = 0 := by
  rw [List.count_eq_zero]
  intro hmem
  rw [List.mem_map] at hmem
  obtain ⟨p, hp, hpk⟩ := hmem
  exact hl p hp hpk

theorem keys_count_of (f v : String) :
    ∀ (l : List (String × String)), (l.map Prod.fst).Nodup →
      (∀ p ∈ l, mkKey p.1 p.2 = mkKey f v → p = (f, v)) →
      (l.map (fun p => mkKey p.1 p.2)).count (mkKey f v) = if (f, v) ∈ l then 1 else 0 := by
  intro l
  induction l with
  | nil => intro _ _; simp
  | cons p rest ih =>
    intro hnd huk
    rw [List.map_cons] at hnd
    by_cases hpk : mkKey p.1 p.2 = mkKey f v
    · have hp : p = (f, v) := huk p (List.mem_cons_self _ _) hpk
      have hrest : ∀ q ∈ rest, mkKey q.1 q.2 ≠ mkKey f v := by
        intro q hq hqk
        have hq2 : q = (f, v) := huk q (List.mem_cons_of_mem _ hq) hqk
        apply (List.nodup_cons.mp hnd).1
        have hq1 : q.1 = p.1 := by rw [hq2, hp]
        exact hq1 ▸ List.mem_map_of_mem Prod.fst hq
      rw [List.map_cons, List.count_cons, keys_count_zero _ rest hrest]
      have hmem : (f, v) ∈ p :: rest := by
        rw [hp]
        exact List.mem_cons_self _ _
      simp [hpk, hmem]
    · have hnotp : ¬((f, v) = p) := fun he => hpk (by rw [← he])
      rw [List.map_cons, List.count_cons,
        ih (List.nodup_cons.mp hnd).2 (fun q hq => huk q (List.mem_cons_of_mem _ hq))]
      simp [List.mem_cons, hnotp, hpk]

theorem rowKeys_count (r : Row) (ex : List String) (f v : String)
    (hnd : (r.map Prod.fst).Nodup)
    (huk : ∀ p ∈ getFieldValues r ex, mkKey p.1 p.2 = mkKey f v → p = (f, v)) :
    (rowKeys r ex).count (mkKey f v) = if holdsFV ex f v r = true then 1 else 0 := by
  unfold rowKeys
  rw [keys_count_of f v (getFieldValues r ex) (gfv_fst_nodup r ex hnd) huk]
  by_cases hmem : (f, v) ∈ getFieldValues r ex
  · rw [if_pos hmem, if_pos ((holdsFV_mem ex f v r).mpr hmem)]
  · rw [if_neg hmem, if_neg (fun hh => hmem ((holdsFV_mem ex f v r).mp hh))]

theorem countOcc_eq_countP (ex : List String) (f v : String) :
    ∀ (data : List Row),
      (∀ r ∈ data, (r.map Prod.fst).Nodup) →
      (∀ r ∈ data, ∀ p ∈ getFieldValues r ex, mkKey p.1 p.2 = mkKey f v → p = (f, v)) →
      countOccurrences data ex (mkKey f v) = data.countP (fun r => holdsFV ex f v r) := by
  intro data
  induction data with
  | nil => intro _ _; rfl
  | cons r rest ih =>
    intro hw hnc
    show ((List.map (fun r => rowKeys r ex) (r :: rest)).flatten).count (mkKey f v) = _
    rw [List.map_cons, List.flatten_cons, List.count_append, List.countP_cons,
      rowKeys_count r ex f v (hw r (List.mem_cons_self _ _)) (hnc r (List.mem_cons_self _ _))]
    have ihr := ih (fun q hq => hw q (List.mem_cons_of_mem _ hq))
      (fun q hq => hnc q (List.mem_cons_of_mem _ hq))
    unfold countOccurrences at ihr
    rw [ihr]
    by_cases hh : holdsFV ex f v r = true
    · rw [if_pos hh]
      omega
    · rw [if_neg hh]
      omega

theorem classifyGo_holders_length (occ : String → Nat) (ex : List String) (P : Row → Bool) :
    ∀ (rows : List Row) (seen : List String),
      ((classifyGo occ ex rows seen).filter (fun rc => P rc.1)).length = rows.countP P := by
  intro rows
  induction rows with
  | nil => intro seen; rfl
  | cons r rest ih =>
    intro seen
    simp only [classifyGo, List.filter_cons, List.countP_cons]
    by_cases hp : P r = true
    · rw [if_pos hp, if_pos hp, List.length_cons, ih]
    · rw [if_neg hp, if_neg hp, ih]
      omega

theorem rowStep_mem_src (occ : String → Nat) :
    ∀ (fvs : List (String × String)) (seen fs : List String) (x : String),
      x ∈ (rowStep occ fvs seen fs).2 →
      x ∈ fs ∨ ∃ w, (x, w) ∈ fvs ∧ occ (mkKey x w) > 1 := by
  intro fvs
  induction fvs with
  | nil => intro seen fs x hx; left; simpa [rowStep] using hx
  | cons p rest ih =>
    intro seen fs x hx
    by_cases h1 : occ (mkKey p.1 p.2) > 1
    · by_cases h2 : mkKey p.1 p.2 ∈ seen
      · simp only [rowStep] at hx
        rw [if_pos h1, if_pos h2] at hx
        rcases ih _ _ _ hx with hfs | ⟨w, hw, hocc2⟩
        · rcases List.mem_append.mp hfs with hin | hp1
          · exact Or.inl hin
          · right
            refine ⟨p.2, ?_, ?_⟩
            · rw [List.mem_singleton.mp hp1]
              exact List.mem_cons_self _ _
            · rw [List.mem_singleton.mp hp1]
              exact h1
        · exact Or.inr ⟨w, List.mem_cons_of_mem _ hw, hocc2⟩
      · simp only [rowStep] at hx
        rw [if_pos h1, if_neg h2] at hx
        rcases ih _ _ _ hx with hfs | ⟨w, hw, hocc2⟩
        · exact Or.inl hfs
        · exact Or.inr ⟨w, List.mem_cons_of_mem _ hw, hocc2⟩
    · simp only [rowStep] at hx
      rw [if_neg h1] at hx
      rcases ih _ _ _ hx with hfs | ⟨w, hw, hocc2⟩
      · exact Or.inl hfs
      · exact Or.inr ⟨w, List.mem_cons_of_mem _ hw, hocc2⟩

theorem classifyGo_inv (occ : String → Nat) (ex : List String) :
    ∀ (rows : List Row) (seen : List String) (rc : Row × List String),
      rc ∈ classifyGo occ ex rows seen →
      rc.1 ∈ rows ∧ ∃ s', rc.2 = (rowStep occ (getFieldValues rc.1 ex) s' []).2 := by
  intro rows
  induction rows with
  | nil => intro seen rc h; simp [classifyGo] at h
  | cons r rest ih =>
    intro seen rc h
    simp only [classifyGo, List.mem_cons] at h
    rcases h with heq | hmem
    · subst heq
      exact ⟨List.mem_cons_self _ _, seen, rfl⟩
    · obtain ⟨ha, hb⟩ := ih _ rc hmem
      exact ⟨List.mem_cons_of_mem _ ha, hb⟩

theorem mem_gfv_inv (r : Row) (ex : List String) (x w' : String)
    (h : (x, w') ∈ getFieldValues r ex) :
    ∃ w, (x, w) ∈ r ∧ w' = jsTrimS w ∧ ex.contains x = false ∧ jsTrimS w ≠ "" := by
  unfold getFieldValues at h
  rw [List.mem_map] at h
  obtain ⟨p, hp, hpe⟩ := h
  rw [List.mem_filter] at hp
  obtain ⟨hpr, hpb⟩ := hp
  have hx : p.1 = x := congrArg Prod.fst hpe
  have hw : jsTrimS p.2 = w' := congrArg Prod.snd hpe
  simp only [Bool.and_eq_true, Bool.not_eq_true', beq_eq_false_iff_ne] at hpb
  refine ⟨p.2, ?_, hw.symm, ?_, hpb.2⟩
  · rw [← hx]
    exact hpr
  · rw [← hx]
    exact hpb.1.1

theorem colon_split :
    ∀ (a b c d : List Char), (':' ∉ a) → (':' ∉ b) →
      a ++ ':' :: c = b ++ ':' :: d → a = b ∧ c = d := by
  intro a
  induction a with
  | nil =>
    intro b c d _ hb h
    cases b with
    | nil =>
      simp only [List.nil_append] at h
      exact ⟨rfl, (List.cons.injEq .. ▸ h).2⟩
    | cons y bs =>
      simp only [List.nil_append, List.cons_append, List.cons.injEq] at h
      exact absurd (List.mem_cons.mpr (Or.inl h.1)) hb
  | cons x as ih =>
    intro b c d ha hb h
    cases b with
    | nil =>
      simp only [List.nil_append, List.cons_append, List.cons.injEq] at h
      exact absurd (List.mem_cons.mpr (Or.inl h.1.symm)) ha
    | cons y bs =>
      simp only [List.cons_append, List.cons.injEq] at h
      obtain ⟨hxy, hrest⟩ := h
      obtain ⟨hab, hcd⟩ := ih bs c d (fun hh => ha (List.mem_cons_of_mem _ hh))
        (fun hh => hb (List.mem_cons_of_mem _ hh)) hrest
      exact ⟨by rw [hxy, hab], hcd⟩

theorem mkKey_data (f v : String) : (mkKey f v).data = f.data ++ ':' :: v.data := by
  show (f ++ ":" ++ v).data = f.data ++ ':' :: v.data
  rw [String.data_append, String.data_append, List.append_assoc]
  rfl

/-! ### Claims about the duplicate detector -/

/-- Claim C1 (amended): first-seen-wins holds for every `field:value` key that
is not subject to a composite-key collision — that is, whenever every
extracted pair producing the key `field:value` is the pair itself (which is
automatic when field names contain no `:`).  Then the key's occurrence count
over the cleaned data equals the number of rows holding the FieldValue, the
earliest such row does not carry the field in its duplicate-field list, and
every later one does.  Rows are well-formed (distinct field names), as
JavaScript objects cannot have duplicate keys. -/
theorem c1_first_seen_wins (data : List Row) (ex : List String) (f v : String)
    (hw : ∀ r ∈ data, (r.map Prod.fst).Nodup)
    (hnc : ∀ r ∈ data, ∀ p ∈ getFieldValues r ex, mkKey p.1 p.2 = mkKey f v → p = (f, v))
    (hN : 2 ≤ countOccurrences (cleanCSVData data ex) ex (mkKey f v)) :
    ((detectorClassification data ex).filter (fun rc => holdsFV ex f v rc.1)).length =
      countOccurrences (cleanCSVData data ex) ex (mkKey f v) ∧
    ∃ hd tl,
      (detectorClassification data ex).filter (fun rc => holdsFV ex f v rc.1) = hd :: tl ∧
      f ∉ hd.2 ∧ ∀ rc ∈ tl, f ∈ rc.2 := by
  have hwc : ∀ r ∈ cleanCSVData data ex, (r.map Prod.fst).Nodup :=
    fun r hr => hw r (List.mem_of_mem_filter hr)
  have hncc : ∀ r ∈ cleanCSVData data ex,
      ∀ p ∈ getFieldValues r ex, mkKey p.1 p.2 = mkKey f v → p = (f, v) :=
    fun r hr => hnc r (List.mem_of_mem_filter hr)
  have hlen : ((detectorClassification data ex).filter
      (fun rc => holdsFV ex f v rc.1)).length =
      countOccurrences (cleanCSVData data ex) ex (mkKey f v) := by
    unfold detectorClassification classifyAll
    rw [classifyGo_holders_length, countOcc_eq_countP ex f v _ hwc hncc]
  have hocc : countOccurrences (cleanCSVData data ex) ex (mkKey f v) > 1 := by omega
  refine ⟨hlen, ?_⟩
  cases hfil : (detectorClassification data ex).filter (fun rc => holdsFV ex f v rc.1) with
  | nil =>
    rw [hfil, List.length_nil] at hlen
    omega
  | cons hd tl =>
    exact ⟨hd, tl, rfl,
      classifyGo_pre (countOccurrences (cleanCSVData data ex) ex) ex f v hocc
        (cleanCSVData data ex) [] hwc hncc (List.not_mem_nil _) hd tl hfil⟩

/-- Counterexample to C1 as stated: with field `a` valued `b:c` in the first
row and field `a:b` valued `c` in the second, the key `a:b:c` has occurrence
count 2, but only one row holds the FieldValue `(a:b, c)` and that row carries
`a:b` in its duplicate-field list — so it is false that exactly one of the 2
rows holding the key has the field absent and the remaining 1 has it
present. -/
theorem c1_counterexample :
    2 ≤ countOccurrences (cleanCSVData collisionData []) [] (mkKey "a:b" "c") ∧
    ((detectorClassification collisionData []).filter
        (fun rc => holdsFV [] "a:b" "c" rc.1)).length = 1 ∧
    ((detectorClassification collisionData []).filter
        (fun rc => holdsFV [] "a:b" "c" rc.1 && !(rc.2.contains "a:b"))).length = 0 :=
  ⟨by decide, by decide, by decide⟩

/-- Witness for C1 on a three-row dataset where `T:x` occurs twice. -/
theorem c1_witness :
    ((∀ r ∈ dupData, (r.map Prod.fst).Nodup) ∧
     (∀ r ∈ dupData, ∀ p ∈ getFieldValues r [],
        mkKey p.1 p.2 = mkKey "T" "x" → p = ("T", "x")) ∧
     2 ≤ countOccurrences (cleanCSVData dupData []) [] (mkKey "T" "x")) ∧
    ((detectorClassification dupData []).filter
        (fun rc => holdsFV [] "T" "x" rc.1)).length =
      countOccurrences (cleanCSVData dupData []) [] (mkKey "T" "x") ∧
    ∃ hd tl,
      (detectorClassification dupData []).filter
        (fun rc => holdsFV [] "T" "x" rc.1) = hd :: tl ∧
      "T" ∉ hd.2 ∧ ∀ rc ∈ tl, "T" ∈ rc.2 :=
  ⟨⟨by decide, by decide, by decide⟩,
   c1_first_seen_wins dupData [] "T" "x" (by decide) (by decide) (by decide)⟩

/-- Claim C2: a field appears in a row's duplicate-field list only if it is
not excluded, its trimmed value in that row is non-empty, and the occurrence
count of its `field:value` key over the cleaned dataset is at least 2. -/
theorem c2_no_false_positives (data : List Row) (ex : List String) :
    ∀ rc ∈ detectorClassification data ex, ∀ fld ∈ rc.2,
      ex.contains fld = false ∧
      ∃ w, (fld, w) ∈ rc.1 ∧ jsTrimS w ≠ "" ∧
        2 ≤ countOccurrences (cleanCSVData data ex) ex (mkKey fld (jsTrimS w)) := by
  intro rc hrc fld hfld
  obtain ⟨hr, s', hs⟩ := classifyGo_inv (countOccurrences (cleanCSVData data ex) ex) ex
    (cleanCSVData data ex) [] rc hrc
  rw [hs] at hfld
  rcases rowStep_mem_src _ _ _ _ _ hfld with hfs | ⟨w'', hw'', hocc⟩
  · exact absurd hfs (List.not_mem_nil _)
  · obtain ⟨w, hwr, hwe, hex, hwne⟩ := mem_gfv_inv rc.1 ex fld w'' hw''
    refine ⟨hex, w, hwr, hwne, ?_⟩
    rw [← hwe]
    omega

/-- Witness for C2: the second row of a two-row dataset sharing `T:a` has
duplicate field `T`. -/
theorem c2_witness :
    (([("T", "a")], ["T"]) ∈ detectorClassification [[("T", "a")], [("T", "a")]] [] ∧
      "T" ∈ (([("T", "a")], ["T"]) : Row × List String).2) ∧
    ([] : List String).contains "T" = false ∧
    ∃ w, ("T", w) ∈ (([("T", "a")], ["T"]) : Row × List String).1 ∧ jsTrimS w ≠ "" ∧
      2 ≤ countOccurrences (cleanCSVData [[("T", "a")], [("T", "a")]] []) []
        (mkKey "T" (jsTrimS w)) :=
  ⟨⟨by decide, by decide⟩,
   c2_no_false_positives [[("T", "a")], [("T", "a")]] [] ([("T", "a")], ["T"])
     (by decide) "T" (by decide)⟩

/-- Claim C3 (amended): the detector groups two FieldValues together exactly
when their composite keys `field ++ ":" ++ value` coincide; provided the field
names contain no `:` character, that happens if and only if both the field
name and the trimmed value match exactly (case-sensitively). -/
theorem c3_key_equality (f1 v1 f2 v2 : String)
    (h1 : ':' ∉ f1.data) (h2 : ':' ∉ f2.data) :
    mkKey f1 v1 = mkKey f2 v2 ↔ (f1 = f2 ∧ v1 = v2) := by
  constructor
  · intro h
    have hd : f1.data ++ ':' :: v1.data = f2.data ++ ':' :: v2.data := by
      rw [← mkKey_data, ← mkKey_data, h]
    obtain ⟨ha, hb⟩ := colon_split f1.data f2.data v1.data v2.data h1 h2 hd
    exact ⟨String.ext ha, String.ext hb⟩
  · rintro ⟨rfl, rfl⟩
    rfl

/-- Counterexample to C3 as stated: the distinct FieldValues `(a, b:c)` and
`(a:b, c)` produce the same key and are conflated into one occurrence group
by `countOccurrences`. -/
theorem c3_counterexample :
    mkKey "a" "b:c" = mkKey "a:b" "c" ∧ ¬("a" = "a:b" ∧ "b:c" = "c") ∧
    countOccurrences (cleanCSVData collisionData []) [] (mkKey "a" "b:c") = 2 :=
  ⟨by decide, by decide, by decide⟩

/-- Witness for C3 at colon-free field names. -/
theorem c3_witness :
    (':' ∉ ("Title" : String).data ∧ ':' ∉ ("Body" : String).data) ∧
    (mkKey "Title" "x" = mkKey "Body" "x" ↔ ("Title" = "Body" ∧ "x" = "x")) :=
  ⟨⟨by decide, by decide⟩,
   c3_key_equality "Title" "x" "Body" "x" (by decide) (by decide)⟩
